import Mathlib

/-! Verification of the HAM10000 skin-lesion classification notebook.
The notebook `classification.ipynb` is embedded shallowly in Lean.

Rows of the metadata table are `Record`s; pandas/numpy/sklearn operations
used by the script are embedded as executable list functions.  Randomness
(the numpy Mersenne Twister, used by `sklearn.utils.resample` and
`train_test_split`) is abstracted: a seeded draw stream is an arbitrary
function `rng : Nat → Nat → Nat` (seed, step ↦ draw), and the shuffle of
`train_test_split` is an arbitrary permutation of the row positions.
-/

/-- A row of `HAM10000_metadata.csv` after label encoding:
the label column holds `le.transform` of the dx column. -/
structure Record where
  image_id : String
  dx : String
  label : Nat
deriving DecidableEq

instance : Inhabited Record := ⟨⟨"", "", 0⟩⟩

/-! Label encoder (notebook lines 29–31).

Here `le = LabelEncoder()` fitted on the dx column stores `np.unique` of the
input, i.e. the sorted list of distinct strings; `transform` maps a string
to its index in that list and `inverse_transform` maps the index back. -/

/-- Insert a string into a (sorted) list, keeping order. -/
def insertSorted (s : String) : List String → List String
  | [] => [s]
  | t :: ts => if s ≤ t then s :: t :: ts else t :: insertSorted s ts

/-- Insertion sort on strings (model of the sort inside `np.unique`). -/
def sortStrings : List String → List String
  | [] => []
  | s :: ss => insertSorted s (sortStrings ss)

/-- Model of `le.classes_` after `le.fit(xs)`: the sorted distinct values of `xs`. -/
def leClasses (xs : List String) : List String := sortStrings xs.dedup

/-- Embedding of `le.transform` on one string: its index in `classes_`. -/
def leTransform (xs : List String) (s : String) : Nat := (leClasses xs).indexOf s

/-- Embedding of `le.inverse_transform` on one id: the class string at that index. -/
def leInverse (xs : List String) (i : Nat) : String := (leClasses xs).getD i ""

/-- Number of classes known to the fitted encoder. -/
def numClasses (xs : List String) : Nat := (leClasses xs).length

/-! Class balancer (notebook lines 55–57).

`df_list = [resample(skin_df[skin_df.label == i], replace=True,
n_samples=400, random_state=42) for i in range(7)]`
`skin_df_balanced = pd.concat(df_list)`

`resample` with `replace=True` draws `n_samples` row positions uniformly
from the input; each draw is a value of the seeded stream reduced mod the
class size. -/

/-- Rows of the table whose encoded label is `i` (`skin_df[skin_df.label == i]`). -/
def classRecords (df : List Record) (i : Nat) : List Record :=
  df.filter (fun r => r.label == i)

/-- The row positions drawn by `resample(_, replace=True, n_samples=n, random_state=seed)`
on a class of size `len`. -/
def sampledIndices (rng : Nat → Nat → Nat) (seed n len : Nat) : List Nat :=
  (List.range n).map (fun k => rng seed k % len)

/-- Embedding of `sklearn.utils.resample(l, replace=True, n_samples=n, random_state=seed)`:
the rows of `l` at the drawn positions. -/
def resample (rng : Nat → Nat → Nat) (l : List Record) (n seed : Nat) : List Record :=
  (sampledIndices rng seed n l.length).map (fun i => l.getD i default)

/-- Call-site wrapper for `resample`: `random_state=some seed` seeds a fresh
generator and the ambient numpy global state `g` (set by `np.random.seed(42)`
at line 21) is not consulted; `random_state=none` would fall back to it. -/
def resampleRS (rng : Nat → Nat → Nat) (g : Nat) (l : List Record) (n : Nat) :
    Option Nat → List Record
  | some seed => resample rng l n seed
  | none => resample rng l n g

/-- The balanced table `skin_df_balanced`: concatenation of the seven per-class resamples,
each with `n_samples=400, random_state=42`, under global numpy state `g`. -/
def skin_df_balanced (rng : Nat → Nat → Nat) (g : Nat) (df : List Record) : List Record :=
  ((List.range 7).map (fun i => resampleRS rng g (classRecords df i) 400 (some 42))).flatten

/-- Number of rows of a table carrying label `i`. -/
def countLabel (df : List Record) (i : Nat) : Nat := (classRecords df i).length

/-! Image loading and preprocessing (notebook lines 26, 60–62, 74).

A decoded image is a list of rows, each row a list of pixels, each pixel a
list of (uint8) channel values.  `Image.open(x).resize((SIZE, SIZE))`
produces a `SIZE × SIZE` picture whose pixels are taken from the source
picture (modelled as nearest-neighbour index mapping); `X = np.asarray(...) / 255.`
divides every channel value by 255. -/

/-- Constant `SIZE = 32` (notebook line 26). -/
def SIZE : Nat := 32

/-- A decoded picture: rows × columns × channels of integer pixel values. -/
abbrev Picture := List (List (List Nat))

/-- A well-formed decoded JPEG: nonempty, rectangular, 3 channels (RGB) per
pixel, channel values in the uint8 range. -/
def wfPicture (img : Picture) : Prop :=
  img ≠ [] ∧
  ∀ row ∈ img, row ≠ [] ∧ row.length = (img.headD []).length ∧
    ∀ px ∈ row, px.length = 3 ∧ ∀ v ∈ px, v ≤ 255

/-- Embedding of `img.resize((s, s))`: an `s × s` picture whose pixel `(i, j)` is the
source pixel at the proportionally scaled position. -/
def resizeImg (img : Picture) (s : Nat) : Picture :=
  (List.range s).map (fun i =>
    (List.range s).map (fun j =>
      (img.getD (i * img.length / s) []).getD (j * (img.headD []).length / s) []))

/-- Embedding of `np.asarray(img) / 255.`: divide every channel value by 255. -/
def normalizeImg (img : Picture) : List (List (List ℚ)) :=
  img.map (fun row => row.map (fun px => px.map (fun (v : Nat) => (v : ℚ) / 255)))

/-- The image tensor attached to one balanced row (line 62) after the
division by 255 in `X` (line 74): resize to `SIZE × SIZE`, then normalize. -/
def trainImageTensor (img : Picture) : List (List (List ℚ)) :=
  normalizeImg (resizeImg img SIZE)

/-! Image path resolution (notebook lines 60–62).

`image_path` is a dict from basename to path; `skin_df_balanced.image_id.map(image_path.get)`
yields `None` for an id with no file, and `Image.open(None)` then raises,
aborting the whole column assignment.  The column map is embedded as an
exception-propagating traversal. -/

/-- Embedding of `image_path.get(id)`: look the id up in the basename → path dict. -/
def image_path_get (dict : List (String × String)) (id : String) : Option String :=
  (dict.find? (fun p => p.1 == id)).map Prod.snd

/-- Embedding of `Image.open(x).resize((SIZE, SIZE))` on the looked-up path: `Image.open(None)`
raises a `TypeError`; decoding is abstracted by `decode`. -/
def openResize (decode : String → Picture) : Option String → Except String Picture
  | none => .error "TypeError: path is not a file name"
  | some p => .ok (resizeImg (decode p) SIZE)

/-- Exception-propagating map: the embedding of a pandas column `.map` whose
function can raise — any raise aborts the whole assignment with no partial
column produced. -/
def mapExcept (f : α → Except String β) : List α → Except String (List β)
  | [] => .ok []
  | a :: as =>
    match f a with
    | .error e => .error e
    | .ok b =>
      match mapExcept f as with
      | .error e => .error e
      | .ok bs => .ok (b :: bs)

/-- The image-column assignment at line 62 applied to the looked-up paths:
the loaded image column, or the uncaught error. -/
def loadImageColumn (decode : String → Picture) (dict : List (String × String))
    (records : List Record) : Except String (List Picture) :=
  mapExcept (fun r => openResize decode (image_path_get dict r.image_id)) records

/-! One-hot labels and argmax (notebook lines 76, 127–128, 156).

`to_categorical(Y, num_classes=7)` produces float one-hot rows;
`np.argmax` returns the position of the first maximum. -/

/-- One row of `to_categorical(Y, num_classes=7)`: a float vector with a 1
at the label position and 0 elsewhere. -/
def to_categorical (y n : Nat) : List ℚ :=
  (List.range n).map (fun j => if j = y then (1 : ℚ) else 0)

/-- Maximum value of a float vector (0 on the empty vector). -/
def maxVal : List ℚ → ℚ
  | [] => 0
  | [x] => x
  | x :: y :: xs => max x (maxVal (y :: xs))

/-- Embedding of `np.argmax`: position of the first occurrence of the maximum. -/
def argmaxList : List ℚ → Nat
  | [] => 0
  | [_] => 0
  | x :: y :: xs => if maxVal (y :: xs) ≤ x then 0 else argmaxList (y :: xs) + 1

/-! Train/test split (notebook line 77).

`train_test_split(X, Y_cat, test_size=0.25, random_state=42)` draws a
random permutation of the row positions, takes the first
`ceil(0.25 * n)` of it as the test positions and the rest as the train
positions.  The permutation is abstracted as `perm`. -/

/-- Test-partition size `n_test = ceil(test_size * n)` with `test_size = 0.25`. -/
def testCount (n : Nat) : Nat := (n + 3) / 4

/-- The (train, test) row-position lists produced by the splitter from the
shuffled positions `perm` of a table of `n` rows. -/
def splitIndices (perm : List Nat) (n : Nat) : List Nat × List Nat :=
  (perm.drop (testCount n), perm.take (testCount n))

/-- Embedding of `train_test_split` on one array: the rows of `xs` at the train
positions and at the test positions. -/
def train_test_split (xs : List α) (d : α) (perm : List Nat) : List α × List α :=
  ((splitIndices perm xs.length).1.map (fun i => xs.getD i d),
   (splitIndices perm xs.length).2.map (fun i => xs.getD i d))

/-! Confusion matrix and per-class error (notebook lines 126–136). -/

/-- Embedding of `cm = confusion_matrix(y_true, y_pred_classes)`: entry `(i, j)` counts
the test rows with true label `i` and predicted label `j`. -/
def cm (ytrue ypred : List Nat) (i j : Nat) : Nat :=
  ((ytrue.zip ypred).filter (fun p => p.1 == i && p.2 == j)).length

/-- Row sum `np.sum(cm, axis=1)` at row `i`. -/
def cmRowSum (ytrue ypred : List Nat) (i : Nat) : Nat :=
  ∑ j ∈ Finset.range 7, cm ytrue ypred i j

/-- Embedding of `incorr_fraction = 1 - np.diag(cm) / np.sum(cm, axis=1)` at row `i`. -/
def incorr_fraction (ytrue ypred : List Nat) (i : Nat) : ℚ :=
  1 - (cm ytrue ypred i i : ℚ) / (cmRowSum ytrue ypred i : ℚ)

/-! Inference helper (notebook lines 142–157). -/

/-- List `class_names` exactly as written at line 142. -/
def class_names : List String :=
  ["Melanocytic nevi", "Melanoma", "Benign keratosis-like lesions",
   "Basal cell carcinoma", "Actinic keratoses", "Vascular lesions", "Dermatofibroma"]

/-- Embedding of `load_and_preprocess_image`: open, resize to `(SIZE, SIZE)`, divide by
255, `np.expand_dims(img, axis=0)` (wrap in a singleton batch). -/
def load_and_preprocess_image (img : Picture) : List (List (List (List ℚ))) :=
  [normalizeImg (resizeImg img SIZE)]

/-- Embedding of `predict_skin_cancer(model, img_path)`: preprocess, forward pass,
`np.argmax(prediction, axis=1)` (per-row argmax), index `class_names` by
the first row's class.  The fitted model is an opaque function from a
batch of image tensors to a batch of probability rows. -/
def predict_skin_cancer (model : List (List (List (List ℚ))) → List (List ℚ))
    (img : Picture) : String :=
  class_names.getD (((model (load_and_preprocess_image img)).map argmaxList).headD 0) ""

/-! Helper lemmas. -/

lemma resample_length (rng : Nat → Nat → Nat) (l : List Record) (n seed : Nat) :
    (resample rng l n seed).length = n := by
  simp [resample, sampledIndices]

lemma mem_resample {rng : Nat → Nat → Nat} {l : List Record} {n seed : Nat}
    (hl : l ≠ []) {r : Record} (hr : r ∈ resample rng l n seed) : r ∈ l := by
  simp only [resample, sampledIndices, List.map_map, List.mem_map, List.mem_range,
    Function.comp] at hr
  obtain ⟨k, -, hk⟩ := hr
  have hpos : 0 < l.length := List.length_pos.mpr hl
  have hlt : rng seed k % l.length < l.length := Nat.mod_lt _ hpos
  rw [List.getD_eq_getElem l default hlt] at hk
  exact hk ▸ List.getElem_mem hlt

lemma mem_classRecords {df : List Record} {i : Nat} {r : Record}
    (h : r ∈ classRecords df i) : r ∈ df ∧ r.label = i := by
  simpa [classRecords, List.mem_filter] using h

lemma countLabel_resample (rng : Nat → Nat → Nat) {df : List Record} {j : Nat}
    (hj : classRecords df j ≠ []) (i : Nat) :
    countLabel (resample rng (classRecords df j) 400 42) i =
      if j = i then 400 else 0 := by
  by_cases hij : j = i
  · subst hij
    rw [if_pos rfl, countLabel, classRecords, List.filter_eq_self.mpr, resample_length]
    intro r hr
    simpa using (mem_classRecords (mem_resample hj hr)).2
  · rw [if_neg hij, countLabel, classRecords, List.filter_eq_nil_iff.mpr, List.length_nil]
    intro r hr
    have := (mem_classRecords (mem_resample hj hr)).2
    simp [this, hij]

lemma countLabel_skin_df_balanced (rng : Nat → Nat → Nat) (g : Nat) {df : List Record}
    (h : ∀ i < 7, classRecords df i ≠ []) (i : Nat) :
    countLabel (skin_df_balanced rng g df) i =
      ((List.range 7).map (fun j => if j = i then 400 else 0)).sum := by
  rw [countLabel, classRecords, skin_df_balanced, List.filter_flatten,
    List.length_flatten, List.map_map, List.map_map]
  congr 1
  apply List.map_congr_left
  intro j hj
  have := countLabel_resample rng (h j (List.mem_range.mp hj)) i
  simpa [countLabel, classRecords, resampleRS, Function.comp] using this

/-- Claim C3: for every metadata table in which each of the 7 classes is
inhabited, the balanced set has exactly 400 rows of each label id, 2800
rows in total, and every balanced row is drawn from the original rows
of its own class. -/
theorem C3_balancer_output (rng : Nat → Nat → Nat) (g : Nat) (df : List Record)
    (h : ∀ i < 7, classRecords df i ≠ []) :
    (∀ i < 7, countLabel (skin_df_balanced rng g df) i = 400) ∧
    (skin_df_balanced rng g df).length = 2800 ∧
    (∀ r ∈ skin_df_balanced rng g df, r ∈ classRecords df r.label) := by
  refine ⟨?_, ?_, ?_⟩
  · intro i hi
    rw [countLabel_skin_df_balanced rng g h i]
    interval_cases i <;> decide
  · rw [skin_df_balanced, List.length_flatten, List.map_map]
    have : ∀ j ∈ List.range 7,
        (List.length ∘ fun i => resampleRS rng g (classRecords df i) 400 (some 42)) j = 400 := by
      intro j _
      simp [resampleRS, resample_length]
    rw [List.map_congr_left this]
    decide
  · intro r hr
    rw [skin_df_balanced, List.mem_flatten] at hr
    obtain ⟨l, hl, hrl⟩ := hr
    rw [List.mem_map] at hl
    obtain ⟨j, hj, rfl⟩ := hl
    have hj7 := List.mem_range.mp hj
    have hmem : r ∈ classRecords df j := mem_resample (h j hj7) hrl
    have hlab := (mem_classRecords hmem).2
    rwa [hlab]

/-- Claim C3 witness: a seven-row table with one row per class. -/
theorem C3_balancer_output_witness :
    (∀ i < 7, classRecords
      [⟨"a", "akiec", 0⟩, ⟨"b", "bcc", 1⟩, ⟨"c", "bkl", 2⟩, ⟨"d", "df", 3⟩,
       ⟨"e", "mel", 4⟩, ⟨"f", "nv", 5⟩, ⟨"g", "vasc", 6⟩] i ≠ []) ∧
    ((∀ i < 7, countLabel (skin_df_balanced (fun s k => s + k) 0
      [⟨"a", "akiec", 0⟩, ⟨"b", "bcc", 1⟩, ⟨"c", "bkl", 2⟩, ⟨"d", "df", 3⟩,
       ⟨"e", "mel", 4⟩, ⟨"f", "nv", 5⟩, ⟨"g", "vasc", 6⟩]) i = 400) ∧
    (skin_df_balanced (fun s k => s + k) 0
      [⟨"a", "akiec", 0⟩, ⟨"b", "bcc", 1⟩, ⟨"c", "bkl", 2⟩, ⟨"d", "df", 3⟩,
       ⟨"e", "mel", 4⟩, ⟨"f", "nv", 5⟩, ⟨"g", "vasc", 6⟩]).length = 2800 ∧
    (∀ r ∈ skin_df_balanced (fun s k => s + k) 0
      [⟨"a", "akiec", 0⟩, ⟨"b", "bcc", 1⟩, ⟨"c", "bkl", 2⟩, ⟨"d", "df", 3⟩,
       ⟨"e", "mel", 4⟩, ⟨"f", "nv", 5⟩, ⟨"g", "vasc", 6⟩],
      r ∈ classRecords
      [⟨"a", "akiec", 0⟩, ⟨"b", "bcc", 1⟩, ⟨"c", "bkl", 2⟩, ⟨"d", "df", 3⟩,
       ⟨"e", "mel", 4⟩, ⟨"f", "nv", 5⟩, ⟨"g", "vasc", 6⟩] r.label)) :=
  ⟨by decide, C3_balancer_output (fun s k => s + k) 0 _ (by decide)⟩

/-- Claim C7: the balancer is a pure function of the seeded stream and the
input table — the ambient global numpy state (set by `np.random.seed`) is
never consulted because `random_state=42` is passed explicitly, so two runs
under any two global states produce identical output rows. -/
theorem C7_balancer_deterministic (rng : Nat → Nat → Nat) (g g' : Nat) (df : List Record) :
    skin_df_balanced rng g df = skin_df_balanced rng g' df := rfl

lemma map_getD_range (xs : List α) (d : α) :
    (List.range xs.length).map (fun i => xs.getD i d) = xs := by
  apply List.ext_getElem
  · simp
  · intro i h1 h2
    simp only [List.getElem_map, List.getElem_range]
    exact List.getD_eq_getElem xs d h2

/-- Claim C2: the train rows followed by the test rows are a permutation of
the balanced rows, the train and test position lists are disjoint, and
every row position lands in one of the two. -/
theorem C2_split_partition (xs : List α) (d : α) (perm : List Nat)
    (hperm : perm.Perm (List.range xs.length)) :
    ((train_test_split xs d perm).1 ++ (train_test_split xs d perm).2).Perm xs ∧
    (∀ i ∈ (splitIndices perm xs.length).1, i ∉ (splitIndices perm xs.length).2) ∧
    (∀ i < xs.length,
      i ∈ (splitIndices perm xs.length).1 ∨ i ∈ (splitIndices perm xs.length).2) := by
  have hnd : perm.Nodup := hperm.nodup_iff.mpr (List.nodup_range _)
  have htd : perm.take (testCount xs.length) ++ perm.drop (testCount xs.length) = perm :=
    List.take_append_drop _ _
  refine ⟨?_, ?_, ?_⟩
  · rw [train_test_split, splitIndices]
    dsimp only
    rw [← List.map_append]
    have h1 : (perm.drop (testCount xs.length) ++ perm.take (testCount xs.length)).Perm perm := by
      conv_rhs => rw [← htd]
      exact List.perm_append_comm
    have h2 := (h1.trans hperm).map (fun i => xs.getD i d)
    rw [map_getD_range xs d] at h2
    exact h2
  · rw [splitIndices]
    dsimp only
    have : (perm.take (testCount xs.length) ++ perm.drop (testCount xs.length)).Nodup := by
      rw [htd]; exact hnd
    rw [List.nodup_append] at this
    intro i hi hit
    exact this.2.2 hit hi
  · intro i hi
    have : i ∈ perm := hperm.mem_iff.mpr (List.mem_range.mpr hi)
    rw [← htd, List.mem_append] at this
    rw [splitIndices]
    dsimp only
    exact this.symm

/-- Claim C2 witness: a four-row table split by the identity shuffle. -/
theorem C2_split_partition_witness :
    (List.range 4).Perm (List.range ([10, 11, 12, 13] : List Nat).length) ∧
    (((train_test_split [10, 11, 12, 13] 0 (List.range 4)).1 ++
        (train_test_split [10, 11, 12, 13] 0 (List.range 4)).2).Perm [10, 11, 12, 13] ∧
      (∀ i ∈ (splitIndices (List.range 4) ([10, 11, 12, 13] : List Nat).length).1,
        i ∉ (splitIndices (List.range 4) ([10, 11, 12, 13] : List Nat).length).2) ∧
      (∀ i < ([10, 11, 12, 13] : List Nat).length,
        i ∈ (splitIndices (List.range 4) ([10, 11, 12, 13] : List Nat).length).1 ∨
        i ∈ (splitIndices (List.range 4) ([10, 11, 12, 13] : List Nat).length).2)) :=
  ⟨List.Perm.refl _, C2_split_partition [10, 11, 12, 13] 0 (List.range 4) (List.Perm.refl _)⟩

/-- Claim C10: on the 2800-row balanced set, `test_size=0.25` puts exactly
700 rows in the test partition and 2100 in the train partition. -/
theorem C10_split_sizes (xs : List α) (d : α) (perm : List Nat)
    (hx : xs.length = 2800) (hp : perm.length = 2800) :
    (train_test_split xs d perm).1.length = 2100 ∧
    (train_test_split xs d perm).2.length = 700 := by
  constructor
  · rw [train_test_split]
    dsimp only [splitIndices]
    rw [List.length_map, List.length_drop, hx, hp]
    norm_num [testCount]
  · rw [train_test_split]
    dsimp only [splitIndices]
    rw [List.length_map, List.length_take, hx, hp]
    norm_num [testCount]

/-- Claim C10 witness: 2800 zeros split by the identity shuffle. -/
theorem C10_split_sizes_witness :
    (List.replicate 2800 (0 : Nat)).length = 2800 ∧ (List.range 2800).length = 2800 ∧
    ((train_test_split (List.replicate 2800 (0 : Nat)) 0 (List.range 2800)).1.length = 2100 ∧
      (train_test_split (List.replicate 2800 (0 : Nat)) 0 (List.range 2800)).2.length = 700) :=
  ⟨by rw [List.length_replicate], by rw [List.length_range],
    C10_split_sizes (List.replicate 2800 0) 0 (List.range 2800)
      (by rw [List.length_replicate]) (by rw [List.length_range])⟩

lemma insertSorted_perm (s : String) (l : List String) :
    (insertSorted s l).Perm (s :: l) := by
  induction l with
  | nil => exact List.Perm.refl _
  | cons t ts ih =>
    rw [insertSorted]
    by_cases h : s ≤ t
    · rw [if_pos h]
    · rw [if_neg h]
      exact (ih.cons t).trans (List.Perm.swap s t ts)

lemma sortStrings_perm (xs : List String) : (sortStrings xs).Perm xs := by
  induction xs with
  | nil => exact List.Perm.refl _
  | cons s ss ih => exact (insertSorted_perm s (sortStrings ss)).trans (ih.cons s)

lemma leClasses_nodup (xs : List String) : (leClasses xs).Nodup :=
  (sortStrings_perm xs.dedup).nodup_iff.mpr (List.nodup_dedup xs)

lemma mem_leClasses {xs : List String} {s : String} : s ∈ leClasses xs ↔ s ∈ xs :=
  Iff.trans ((sortStrings_perm xs.dedup).mem_iff) List.mem_dedup

/-- Claim C4: the fitted label encoder is a bijection between the distinct
diagnosis strings and the ids `[0, numClasses)`: encode-then-decode is the
identity on every fitted string, encoding is injective into the id range,
and every id decodes to a fitted string that encodes back to it. -/
theorem C4_label_encoder_bijection (xs : List String) :
    (∀ s ∈ xs, leInverse xs (leTransform xs s) = s) ∧
    (∀ s ∈ xs, leTransform xs s < numClasses xs) ∧
    (∀ s ∈ xs, ∀ t ∈ xs, leTransform xs s = leTransform xs t → s = t) ∧
    (∀ i < numClasses xs, leInverse xs i ∈ xs ∧ leTransform xs (leInverse xs i) = i) := by
  have hidx : ∀ s ∈ xs, (leClasses xs).indexOf s < (leClasses xs).length := by
    intro s hs
    exact List.indexOf_lt_length.mpr (mem_leClasses.mpr hs)
  have hinv : ∀ s ∈ xs, leInverse xs (leTransform xs s) = s := by
    intro s hs
    rw [leInverse, leTransform, List.getD_eq_getElem _ _ (hidx s hs)]
    exact List.getElem_indexOf (hidx s hs)
  refine ⟨hinv, ?_, ?_, ?_⟩
  · intro s hs
    exact hidx s hs
  · intro s hs t ht he
    have := hinv s hs
    rw [he, hinv t ht] at this
    exact this.symm
  · intro i hi
    have hmem : (leClasses xs).getD i "" ∈ leClasses xs := by
      rw [List.getD_eq_getElem _ _ hi]
      exact List.getElem_mem hi
    refine ⟨mem_leClasses.mp hmem, ?_⟩
    rw [leTransform, leInverse, List.getD_eq_getElem _ _ hi]
    exact List.indexOf_getElem (leClasses_nodup xs) i hi

/-- Claim C4 witness: round-trip on a concrete diagnosis column. -/
theorem C4_label_encoder_bijection_witness :
    leInverse ["nv", "mel", "nv", "bkl"]
      (leTransform ["nv", "mel", "nv", "bkl"] "mel") = "mel" :=
  (C4_label_encoder_bijection ["nv", "mel", "nv", "bkl"]).1 "mel" (by decide)

lemma resize_pixel_mem {img : Picture} (h : wfPicture img) {row : List (List Nat)}
    (hrow : row ∈ resizeImg img SIZE) {px : List Nat} (hpx : px ∈ row) :
    ∃ row' ∈ img, px ∈ row' := by
  obtain ⟨hne, hrect⟩ := h
  rw [resizeImg, List.mem_map] at hrow
  obtain ⟨i, hi, rfl⟩ := hrow
  rw [List.mem_map] at hpx
  obtain ⟨j, hj, rfl⟩ := hpx
  have hi32 := List.mem_range.mp hi
  have hj32 := List.mem_range.mp hj
  have hlen : 0 < img.length := List.length_pos.mpr hne
  have hsi : i * img.length / SIZE < img.length := by
    apply Nat.div_lt_of_lt_mul
    exact Nat.mul_lt_mul_of_pos_right hi32 hlen
  rw [List.getD_eq_getElem img [] hsi]
  have hrowmem : img[i * img.length / SIZE] ∈ img := List.getElem_mem hsi
  obtain ⟨hne', hrect', -⟩ := hrect _ hrowmem
  have hw : 0 < (img.headD []).length := by
    rw [← hrect']
    exact List.length_pos.mpr hne'
  have hsj : j * (img.headD []).length / SIZE < img[i * img.length / SIZE].length := by
    rw [hrect']
    apply Nat.div_lt_of_lt_mul
    exact Nat.mul_lt_mul_of_pos_right hj32 hw
  rw [List.getD_eq_getElem _ [] hsj]
  exact ⟨_, hrowmem, List.getElem_mem hsj⟩

/-- Claim C5: on every well-formed decoded image, the produced tensor has
32 rows of 32 pixels of 3 channels, and after the division by 255 every
value lies in `[0, 1]`. -/
theorem C5_image_tensor_shape (img : Picture) (h : wfPicture img) :
    (trainImageTensor img).length = 32 ∧
    ∀ row ∈ trainImageTensor img, row.length = 32 ∧
      ∀ px ∈ row, px.length = 3 ∧ ∀ v ∈ px, 0 ≤ v ∧ v ≤ 1 := by
  constructor
  · simp [trainImageTensor, normalizeImg, resizeImg, SIZE]
  · intro row hrow
    rw [trainImageTensor, normalizeImg, List.mem_map] at hrow
    obtain ⟨row₀, hrow₀, rfl⟩ := hrow
    constructor
    · have : row₀.length = 32 := by
        rw [resizeImg, List.mem_map] at hrow₀
        obtain ⟨i, -, rfl⟩ := hrow₀
        simp [SIZE]
      simpa using this
    · intro px hpx
      rw [List.mem_map] at hpx
      obtain ⟨px₀, hpx₀, rfl⟩ := hpx
      obtain ⟨row', hrow', hpx'⟩ := resize_pixel_mem h hrow₀ hpx₀
      obtain ⟨-, -, hpxprops⟩ := h.2 row' hrow'
      obtain ⟨hlen3, hvals⟩ := hpxprops px₀ hpx'
      constructor
      · rw [List.length_map]
        exact hlen3
      · intro v hv
        rw [List.mem_map] at hv
        obtain ⟨u, hu, rfl⟩ := hv
        have hu255 : (u : ℚ) ≤ 255 := by exact_mod_cast hvals u hu
        constructor
        · positivity
        · rw [div_le_one (by norm_num : (0 : ℚ) < 255)]
          exact hu255

/-- Claim C5 witness: a one-pixel black image. -/
theorem C5_image_tensor_shape_witness :
    wfPicture [[[0, 0, 0]]] ∧
    ((trainImageTensor [[[0, 0, 0]]]).length = 32 ∧
      ∀ row ∈ trainImageTensor [[[0, 0, 0]]], row.length = 32 ∧
        ∀ px ∈ row, px.length = 3 ∧ ∀ v ∈ px, 0 ≤ v ∧ v ≤ 1) :=
  ⟨by constructor
      · simp
      · intro row hrow
        simp only [List.mem_singleton] at hrow
        subst hrow
        refine ⟨by simp, by simp, ?_⟩
        intro px hpx
        simp only [List.mem_singleton] at hpx
        subst hpx
        exact ⟨by simp, by intro v hv; simp at hv; omega⟩,
    C5_image_tensor_shape [[[0, 0, 0]]]
      ⟨by simp, by
        intro row hrow
        simp only [List.mem_singleton] at hrow
        subst hrow
        refine ⟨by simp, by simp, ?_⟩
        intro px hpx
        simp only [List.mem_singleton] at hpx
        subst hpx
        exact ⟨by simp, by intro v hv; simp at hv; omega⟩⟩⟩

lemma one_hot_7_eq : ∀ y < 7, ∃ l, to_categorical y 7 = l ∧
    l.sum = 1 ∧ l.count 1 = 1 ∧ argmaxList l = y := by
  intro y hy
  interval_cases y
  · exact ⟨[1, 0, 0, 0, 0, 0, 0], rfl, by norm_num, by norm_num [List.count_cons],
      by norm_num [argmaxList, maxVal]⟩
  · exact ⟨[0, 1, 0, 0, 0, 0, 0], rfl, by norm_num, by norm_num [List.count_cons],
      by norm_num [argmaxList, maxVal]⟩
  · exact ⟨[0, 0, 1, 0, 0, 0, 0], rfl, by norm_num, by norm_num [List.count_cons],
      by norm_num [argmaxList, maxVal]⟩
  · exact ⟨[0, 0, 0, 1, 0, 0, 0], rfl, by norm_num, by norm_num [List.count_cons],
      by norm_num [argmaxList, maxVal]⟩
  · exact ⟨[0, 0, 0, 0, 1, 0, 0], rfl, by norm_num, by norm_num [List.count_cons],
      by norm_num [argmaxList, maxVal]⟩
  · exact ⟨[0, 0, 0, 0, 0, 1, 0], rfl, by norm_num, by norm_num [List.count_cons],
      by norm_num [argmaxList, maxVal]⟩
  · exact ⟨[0, 0, 0, 0, 0, 0, 1], rfl, by norm_num, by norm_num [List.count_cons],
      by norm_num [argmaxList, maxVal]⟩

lemma one_hot_props {y : Nat} (hy : y < 7) :
    (to_categorical y 7).sum = 1 ∧ (to_categorical y 7).count 1 = 1 ∧
    argmaxList (to_categorical y 7) = y := by
  obtain ⟨l, hl, h1, h2, h3⟩ := one_hot_7_eq y hy
  rw [hl]
  exact ⟨h1, h2, h3⟩

lemma label_lt_of_mem_balanced {rng : Nat → Nat → Nat} {g : Nat} {df : List Record}
    (h : ∀ i < 7, classRecords df i ≠ []) {r : Record}
    (hr : r ∈ skin_df_balanced rng g df) : r.label < 7 := by
  rw [skin_df_balanced, List.mem_flatten] at hr
  obtain ⟨l, hl, hrl⟩ := hr
  rw [List.mem_map] at hl
  obtain ⟨j, hj, rfl⟩ := hl
  have hj7 := List.mem_range.mp hj
  have := (mem_classRecords (mem_resample (h j hj7) hrl)).2
  omega

/-- Claim C6: for every row of the balanced set, its one-hot vector has
length 7, sums to 1, has exactly one entry equal to 1, and its arg-max is
the row's integer label. -/
theorem C6_one_hot_labels (rng : Nat → Nat → Nat) (g : Nat) (df : List Record)
    (h : ∀ i < 7, classRecords df i ≠ []) :
    ∀ r ∈ skin_df_balanced rng g df,
      (to_categorical r.label 7).length = 7 ∧
      (to_categorical r.label 7).sum = 1 ∧
      (to_categorical r.label 7).count 1 = 1 ∧
      argmaxList (to_categorical r.label 7) = r.label := by
  intro r hr
  have hy := label_lt_of_mem_balanced h hr
  obtain ⟨h1, h2, h3⟩ := one_hot_props hy
  exact ⟨by simp [to_categorical], h1, h2, h3⟩

/-- Claim C6 witness: the seven-row one-record-per-class table again. -/
theorem C6_one_hot_labels_witness :
    (∀ i < 7, classRecords
      [⟨"a", "akiec", 0⟩, ⟨"b", "bcc", 1⟩, ⟨"c", "bkl", 2⟩, ⟨"d", "df", 3⟩,
       ⟨"e", "mel", 4⟩, ⟨"f", "nv", 5⟩, ⟨"g", "vasc", 6⟩] i ≠ []) ∧
    (∀ r ∈ skin_df_balanced (fun s k => s * k) 0
      [⟨"a", "akiec", 0⟩, ⟨"b", "bcc", 1⟩, ⟨"c", "bkl", 2⟩, ⟨"d", "df", 3⟩,
       ⟨"e", "mel", 4⟩, ⟨"f", "nv", 5⟩, ⟨"g", "vasc", 6⟩],
      (to_categorical r.label 7).length = 7 ∧
      (to_categorical r.label 7).sum = 1 ∧
      (to_categorical r.label 7).count 1 = 1 ∧
      argmaxList (to_categorical r.label 7) = r.label) :=
  ⟨by decide, C6_one_hot_labels (fun s k => s * k) 0 _ (by decide)⟩

lemma argmaxList_lt_length : ∀ l : List ℚ, l ≠ [] → argmaxList l < l.length
  | [], h => absurd rfl h
  | [_], _ => by simp [argmaxList]
  | x :: y :: xs, _ => by
    rw [argmaxList]
    by_cases h : maxVal (y :: xs) ≤ x
    · rw [if_pos h]
      simp
    · rw [if_neg h]
      have := argmaxList_lt_length (y :: xs) (by simp)
      simpa using Nat.succ_lt_succ this

/-- Claim C1: the inference helper preprocesses exactly as training does
(resize to 32×32, divide by 255, add a batch dimension), and when the
model answers one 7-way probability row and `class_names` lists the
diagnosis names in label-id order, the returned string is the name of the
diagnosis whose id is the arg-max of the forward pass; the helper is a
pure function of the model and the image. -/
theorem C1_inference_helper (model : List (List (List (List ℚ))) → List (List ℚ))
    (img : Picture) (p : List ℚ) (name_of : Nat → String)
    (hout : model (load_and_preprocess_image img) = [p])
    (hlen : p.length = 7)
    (hord : ∀ j < 7, class_names.getD j "" = name_of j) :
    predict_skin_cancer model img = name_of (argmaxList p) ∧
    argmaxList p < 7 ∧
    load_and_preprocess_image img = [trainImageTensor img] := by
  have hne : p ≠ [] := by
    intro h
    rw [h] at hlen
    exact absurd hlen (by decide)
  have hlt : argmaxList p < 7 := by
    have := argmaxList_lt_length p hne
    omega
  refine ⟨?_, hlt, rfl⟩
  rw [predict_skin_cancer, hout]
  simpa using hord (argmaxList p) hlt

/-- Claim C1 witness: a constant model that answers class 6. -/
theorem C1_inference_helper_witness :
    (fun _ => [([0, 0, 0, 0, 0, 0, 1] : List ℚ)] :
        List (List (List (List ℚ))) → List (List ℚ))
      (load_and_preprocess_image [[[0, 0, 0]]]) = [[0, 0, 0, 0, 0, 0, 1]] ∧
    ([0, 0, 0, 0, 0, 0, 1] : List ℚ).length = 7 ∧
    (∀ j < 7, class_names.getD j "" = class_names.getD j "") ∧
    (predict_skin_cancer (fun _ => [([0, 0, 0, 0, 0, 0, 1] : List ℚ)]) [[[0, 0, 0]]] =
        class_names.getD (argmaxList [0, 0, 0, 0, 0, 0, 1]) "" ∧
      argmaxList ([0, 0, 0, 0, 0, 0, 1] : List ℚ) < 7 ∧
      load_and_preprocess_image [[[0, 0, 0]]] = [trainImageTensor [[[0, 0, 0]]]]) :=
  ⟨rfl, rfl, fun _ _ => rfl,
    C1_inference_helper (fun _ => [[0, 0, 0, 0, 0, 0, 1]]) [[[0, 0, 0]]]
      [0, 0, 0, 0, 0, 0, 1] (fun j => class_names.getD j "") rfl rfl (fun _ _ => rfl)⟩

lemma filter_pair_snd_sum {i : Nat} :
    ∀ l : List (Nat × Nat), (∀ p ∈ l, p.2 < 7) →
      (∑ j ∈ Finset.range 7, (l.filter (fun p => p.1 == i && p.2 == j)).length) =
        (l.filter (fun p => p.1 == i)).length := by
  intro l
  induction l with
  | nil => intro _; simp
  | cons a l ih =>
    intro h
    have ha : a.2 < 7 := h a (List.mem_cons_self a l)
    have hl := ih (fun p hp => h p (List.mem_cons_of_mem a hp))
    by_cases hfst : a.1 = i
    · have hsplit : ∀ j, ((a :: l).filter (fun p => p.1 == i && p.2 == j)).length =
          (if a.2 = j then 1 else 0) + (l.filter (fun p => p.1 == i && p.2 == j)).length := by
        intro j
        by_cases hsnd : a.2 = j
        · simp [List.filter_cons, hfst, hsnd]
          omega
        · simp [List.filter_cons, hfst, hsnd]
      rw [Finset.sum_congr rfl (fun j _ => hsplit j), Finset.sum_add_distrib,
        Finset.sum_ite_eq, if_pos (Finset.mem_range.mpr ha), hl]
      simp [List.filter_cons, hfst]
      omega
    · have hsplit : ∀ j, ((a :: l).filter (fun p => p.1 == i && p.2 == j)).length =
          (l.filter (fun p => p.1 == i && p.2 == j)).length := by
        intro j
        simp [List.filter_cons, hfst]
      rw [Finset.sum_congr rfl (fun j _ => hsplit j), hl]
      simp [List.filter_cons, hfst]

lemma zip_filter_fst_count :
    ∀ (ytrue ypred : List Nat), ypred.length = ytrue.length → ∀ i,
      ((ytrue.zip ypred).filter (fun p => p.1 == i)).length = ytrue.count i := by
  intro ytrue
  induction ytrue with
  | nil => intro ypred _ i; simp
  | cons a as ih =>
    intro ypred h i
    cases ypred with
    | nil => simp at h
    | cons b bs =>
      have hlen : bs.length = as.length := by simpa using h
      by_cases hai : a = i
      · simp [List.zip_cons_cons, List.filter_cons, hai, List.count_cons, ih bs hlen i]
      · simp [List.zip_cons_cons, List.filter_cons, hai, List.count_cons, ih bs hlen i,
          Ne.symm hai]

lemma filter_and_not_split (q r : α → Bool) :
    ∀ l : List α, (l.filter q).length =
      (l.filter (fun a => q a && r a)).length + (l.filter (fun a => q a && !(r a))).length := by
  intro l
  induction l with
  | nil => simp
  | cons a l ih =>
    by_cases hq : q a
    · by_cases hr : r a
      · simp [List.filter_cons, hq, hr]
        omega
      · simp [List.filter_cons, hq, hr]
        omega
    · simp [List.filter_cons, hq]
      omega

/-- Claim C8: each confusion-matrix row sums to the number of test rows
whose true label is that row's class, and the per-class incorrect
fraction `1 - diag/rowsum` equals the miscounted fraction of that class. -/
theorem C8_confusion_matrix_rows (ytrue ypred : List Nat)
    (hlen : ypred.length = ytrue.length) (hp : ∀ y ∈ ypred, y < 7) :
    (∀ i, cmRowSum ytrue ypred i = ytrue.count i) ∧
    (∀ i, 0 < cmRowSum ytrue ypred i →
      incorr_fraction ytrue ypred i =
        (((ytrue.zip ypred).filter (fun p => p.1 == i && !(p.2 == i))).length : ℚ) /
          (cmRowSum ytrue ypred i : ℚ)) := by
  have hzip : ∀ p ∈ ytrue.zip ypred, p.2 < 7 := by
    intro p hmem
    exact hp p.2 (List.of_mem_zip hmem).2
  have hrow : ∀ i, cmRowSum ytrue ypred i =
      ((ytrue.zip ypred).filter (fun p => p.1 == i)).length := by
    intro i
    rw [cmRowSum]
    exact filter_pair_snd_sum (ytrue.zip ypred) hzip
  constructor
  · intro i
    rw [hrow i]
    exact zip_filter_fst_count ytrue ypred hlen i
  · intro i hpos
    have hsplit := filter_and_not_split (fun p : Nat × Nat => p.1 == i)
      (fun p : Nat × Nat => p.2 == i) (ytrue.zip ypred)
    have hdiag : cm ytrue ypred i i =
        ((ytrue.zip ypred).filter (fun p => p.1 == i && p.2 == i)).length := rfl
    have hsum : cmRowSum ytrue ypred i = cm ytrue ypred i i +
        ((ytrue.zip ypred).filter (fun p => p.1 == i && !(p.2 == i))).length := by
      rw [hrow i, hdiag]
      exact hsplit
    rw [incorr_fraction]
    have hne : (cmRowSum ytrue ypred i : ℚ) ≠ 0 := by
      exact_mod_cast Nat.pos_iff_ne_zero.mp hpos
    field_simp
    rw [hsum]
    push_cast
    ring

/-- Claim C8 witness: two test rows, true labels 0 and 1, both predicted 0. -/
theorem C8_confusion_matrix_rows_witness :
    ([0, 0] : List Nat).length = ([0, 1] : List Nat).length ∧
    (∀ y ∈ ([0, 0] : List Nat), y < 7) ∧
    ((∀ i, cmRowSum [0, 1] [0, 0] i = List.count i [0, 1]) ∧
      (∀ i, 0 < cmRowSum [0, 1] [0, 0] i →
        incorr_fraction [0, 1] [0, 0] i =
          (((List.zip [0, 1] [0, 0]).filter (fun p => p.1 == i && !(p.2 == i))).length : ℚ) /
            (cmRowSum [0, 1] [0, 0] i : ℚ))) :=
  ⟨rfl, by decide, C8_confusion_matrix_rows [0, 1] [0, 0] rfl (by decide)⟩

lemma mapExcept_error_of_mem {f : α → Except String β} :
    ∀ {l : List α} {a : α}, a ∈ l → (∃ e, f a = .error e) →
      ∃ e, mapExcept f l = .error e := by
  intro l
  induction l with
  | nil => intro a ha; exact absurd ha (List.not_mem_nil a)
  | cons b bs ih =>
    intro a ha he
    rw [mapExcept]
    rcases hfb : f b with e | v
    · exact ⟨e, rfl⟩
    · rcases List.mem_cons.mp ha with rfl | hmem
      · obtain ⟨e, he⟩ := he
        rw [he] at hfb
        cases hfb
      · obtain ⟨e, hmap⟩ := ih hmem he
        rw [hmap]
        exact ⟨e, rfl⟩

lemma mapExcept_ok_length {f : α → Except String β} :
    ∀ {l : List α} {l' : List β}, mapExcept f l = .ok l' → l'.length = l.length := by
  intro l
  induction l with
  | nil =>
    intro l' h
    rw [mapExcept] at h
    cases h
    rfl
  | cons b bs ih =>
    intro l' h
    rw [mapExcept] at h
    rcases hfb : f b with e | v
    · rw [hfb] at h
      cases h
    · rw [hfb] at h
      rcases hrec : mapExcept f bs with e | vs
      · rw [hrec] at h
        cases h
      · rw [hrec] at h
        cases h
        simpa using ih hrec

/-- Claim C9: a balanced row whose image id resolves to no file makes the
image-loading column fail with an uncaught error — the whole assignment is
an error, the row is never skipped and no partial column is produced; and
whenever the column does load, it has one image per row. -/
theorem C9_missing_file_fatal (decode : String → Picture)
    (dict : List (String × String)) (records : List Record) (r : Record)
    (hr : r ∈ records) (hmiss : image_path_get dict r.image_id = none) :
    (∃ e, loadImageColumn decode dict records = Except.error e) ∧
    (∀ recs : List Record, ∀ l : List Picture,
      loadImageColumn decode dict recs = Except.ok l → l.length = recs.length) := by
  constructor
  · apply mapExcept_error_of_mem hr
    rw [hmiss]
    exact ⟨"TypeError: path is not a file name", rfl⟩
  · intro recs l h
    exact mapExcept_ok_length h

/-- Claim C9 witness: one row, empty file dictionary. -/
theorem C9_missing_file_fatal_witness :
    (⟨"ISIC_9999999", "nv", 5⟩ : Record) ∈ [(⟨"ISIC_9999999", "nv", 5⟩ : Record)] ∧
    image_path_get [] (Record.image_id ⟨"ISIC_9999999", "nv", 5⟩) = none ∧
    ((∃ e, loadImageColumn (fun _ => [[[0, 0, 0]]]) []
        [(⟨"ISIC_9999999", "nv", 5⟩ : Record)] = Except.error e) ∧
      (∀ recs : List Record, ∀ l : List Picture,
        loadImageColumn (fun _ => [[[0, 0, 0]]]) [] recs = Except.ok l →
          l.length = recs.length)) :=
  ⟨List.mem_singleton.mpr rfl, rfl,
    C9_missing_file_fatal (fun _ => [[[0, 0, 0]]]) [] [⟨"ISIC_9999999", "nv", 5⟩]
      ⟨"ISIC_9999999", "nv", 5⟩ (List.mem_singleton.mpr rfl) rfl⟩

